import Mathlib

/-!
Verification of the crictl image subcommands (cmd/crictl/image.go).

Strings are modelled as `List Char`; Go's byte-wise string order becomes
code-point order `lexLt`.  The remote image service, the protobuf/JSON/YAML
serializers and the human-size formatter are external collaborators; they are
modelled as function fields of an `Env` record.  Commands are modelled as
functions from an `Env` and their CLI inputs to the list of RPC calls they
issue, the lines they print, and their error result.
-/

set_option autoImplicit false

namespace Crictl

/-- An image record as returned by the image service (pb.Image). -/
structure Image where
  id : List Char
  repoTags : List (List Char)
  repoDigests : List (List Char)
  size : Nat
  uid : Option Int
  username : List Char
  deriving DecidableEq, Repr

/-- Byte-wise lexicographic order of Go strings, on code points. -/
def lexLt : List Char → List Char → Bool
  | _, [] => false
  | [], _ :: _ => true
  | a :: as, b :: bs =>
    if a.toNat < b.toNat then true
    else if b.toNat < a.toNat then false
    else lexLt as bs

/-- The sort comparator `imageByRef.Less` from image.go (lines 38-46). -/
def imageByRefLess (a b : Image) : Bool :=
  if 0 < a.repoTags.length ∧ 0 < b.repoTags.length then
    lexLt (a.repoTags.headD []) (b.repoTags.headD [])
  else if 0 < a.repoDigests.length ∧ 0 < b.repoDigests.length then
    lexLt (a.repoDigests.headD []) (b.repoDigests.headD [])
  else
    lexLt a.id b.id

/-- The comparison rule as the spec words it: primary key is the first
repository-tag string if both sides have one, else the first repository-digest
string if both have one, else the raw identifier, ascending lexicographic. -/
def imageLessSpec (a b : Image) : Bool :=
  match a.repoTags.head?, b.repoTags.head? with
  | some ta, some tb => lexLt ta tb
  | _, _ =>
    match a.repoDigests.head?, b.repoDigests.head? with
    | some da, some db => lexLt da db
    | _, _ => lexLt a.id b.id

/-- Split at the first occurrence of `sep`, as strings.SplitN(s, sep, 2):
`none` when `sep` does not occur. -/
def splitFirst (sep : Char) : List Char → Option (List Char × List Char)
  | [] => none
  | c :: cs =>
    if c == sep then some ([], cs)
    else
      match splitFirst sep cs with
      | none => none
      | some (pre, post) => some (c :: pre, post)

/-- parseCreds from image.go (lines 304-316). -/
def parseCreds (creds : List Char) : Except (List Char) (List Char × List Char) :=
  if creds = [] then .error ("credentials can't be empty".data)
  else
    match splitFirst ':' creds with
    | none => .ok (creds, [])
    | some (u, p) =>
      if u = [] then .error ("username can't be empty".data) else .ok (u, p)

/-- The parseCreds contract as the spec words it: fail iff the string is empty
or its pre-colon segment is empty; otherwise split at the first colon, the
password being empty when there is no colon. -/
def parseCredsSpec (s : List Char) : Except (List Char) (List Char × List Char) :=
  if s = [] then .error ("credentials can't be empty".data)
  else if s.takeWhile (fun c => c != ':') = [] then .error ("username can't be empty".data)
  else if ':' ∈ s then
    .ok (s.takeWhile (fun c => c != ':'), (s.dropWhile (fun c => c != ':')).tail)
  else .ok (s, [])

/-- Index of the last occurrence of `sep`, as strings.LastIndex: `none` when
`sep` does not occur. -/
def lastIndex (sep : Char) : List Char → Option Nat
  | [] => none
  | c :: cs =>
    match lastIndex sep cs with
    | some i => some (i + 1)
    | none => if c == sep then some 0 else none

/-- normalizeRepoTagPair from image.go (lines 331-345): one (name, "<none>")
pair when there are no tags, else one pair per tag, split at the last colon,
with the errorRepoTag sentinels when a tag has no colon. -/
def normalizeRepoTagPair (repoTags : List (List Char)) (imageName : List Char) :
    List (List Char × List Char) :=
  if repoTags = [] then [(imageName, "<none>".data)]
  else
    repoTags.map fun repoTag =>
      match lastIndex ':' repoTag with
      | none => ("errorRepoTag".data, "errorRepoTag".data)
      | some idx => (repoTag.take idx, repoTag.drop (idx + 1))

/-- Tag splitting as the spec words it: the pair's second element is the text
strictly after the final colon (the longest colon-free suffix), the first is
what stands before that colon; both are the errorRepoTag sentinel when the
entry has no colon. -/
def tagSplitSpec (e : List Char) : List Char × List Char :=
  if ':' ∈ e then
    (((e.reverse.dropWhile (fun c => c != ':')).tail).reverse,
     (e.reverse.takeWhile (fun c => c != ':')).reverse)
  else ("errorRepoTag".data, "errorRepoTag".data)

/-- Tag-pair normalization as the spec words it. -/
def normalizeRepoTagPairSpec (repoTags : List (List Char)) (imageName : List Char) :
    List (List Char × List Char) :=
  if repoTags = [] then [(imageName, "<none>".data)] else repoTags.map tagSplitSpec

/-- Number of occurrences of `sep`. -/
def countCh (sep : Char) : List Char → Nat
  | [] => 0
  | c :: cs => (if c == sep then 1 else 0) + countCh sep cs

/-- Split on every occurrence of `sep`, as strings.Split. -/
def splitAll (sep : Char) : List Char → List (List Char)
  | [] => [[]]
  | c :: cs =>
    match splitAll sep cs with
    | [] => [[]]
    | h :: t => if c == sep then [] :: h :: t else (c :: h) :: t

/-- normalizeRepoDigest from image.go (lines 347-356): ("<none>", "<none>")
when there are no digests, else the first digest split at "@" when that yields
exactly two parts, else the error sentinels. -/
def normalizeRepoDigest (repoDigests : List (List Char)) : List Char × List Char :=
  match repoDigests with
  | [] => ("<none>".data, "<none>".data)
  | d :: _ =>
    match splitAll '@' d with
    | [a, b] => (a, b)
    | _ => ("errorName".data, "errorRepoDigest".data)

/-- Digest normalization as the spec words it: splitting the first digest on
"@" yields exactly two parts precisely when it holds exactly one "@"; the two
parts are then the text before and after that "@". -/
def normalizeRepoDigestSpec (repoDigests : List (List Char)) : List Char × List Char :=
  match repoDigests with
  | [] => ("<none>".data, "<none>".data)
  | d :: _ =>
    if countCh '@' d = 1 then
      (d.takeWhile (fun c => c != '@'), (d.dropWhile (fun c => c != '@')).tail)
    else ("errorName".data, "errorRepoDigest".data)

/-- An RPC call issued to the image service. -/
inductive Call where
  | status (id : List Char) (verbose : Bool)
  | remove (id : List Char)
  deriving DecidableEq, Repr

/-- A printed line: `text` goes through fmt.Printf, `tabbed` is one
tab-separated row written to the tabwriter. -/
inductive Line where
  | text (s : List Char)
  | tabbed (cols : List (List Char))
  deriving DecidableEq, Repr

/-- The external collaborators: the remote image service and the library
formatters/serializers, opaque to this code. -/
structure Env where
  humanSize : Nat → List Char
  uidFmt : Int → List Char
  infoFmt : List Char → List Char
  status : List Char → Bool → Except (List Char) (Option Image × List Char)
  remove : List Char → Except (List Char) Unit
  marshal : Image → Except (List Char) (List Char)
  outputStatus : List Char → List Char → List Char → Except (List Char) Unit

/-- What a command run produced: the RPC calls in order, the printed lines,
and the returned error (if any). -/
structure CmdOut where
  calls : List Call
  lines : List Line
  result : Except (List Char) Unit

/-- Go strings.TrimPrefix: drop `pre` from the front of `s` when present. -/
def hasPre : List Char → List Char → Bool
  | [], _ => true
  | _ :: _, [] => false
  | p :: ps, c :: cs => p == c && hasPre ps cs

/-- Remove a leading occurrence of `pre` from `s`, when present. -/
def stripLeading (pre s : List Char) : List Char :=
  if hasPre pre s then s.drop pre.length else s

/-- Modelled from the spec: the constant `truncatedIDLen` is declared outside
this file; the spec fixes the truncated-identifier length at 12. -/
def truncatedIDLen : Nat := 12

/-- The identifier shown in the images table (image.go lines 157-163): the raw
identifier when --no-trunc is set, else the identifier with a leading
"sha256:" stripped and cut to `truncatedIDLen` characters when longer. -/
def displayedId (noTrunc : Bool) (id : List Char) : List Char :=
  if noTrunc then id
  else
    if truncatedIDLen < (stripLeading ("sha256:".data) id).length then
      (stripLeading ("sha256:".data) id).take truncatedIDLen
    else stripLeading ("sha256:".data) id

/-- The flags of the images subcommand. -/
structure ListFlags where
  verbose : Bool
  quiet : Bool
  output : List Char
  digests : Bool
  noTrunc : Bool

/-- The table rows of one image in non-verbose, non-quiet mode (image.go
lines 153-171): one row per (name, tag) pair. -/
def imageRows (env : Env) (showDigest noTrunc : Bool) (image : Image) : List Line :=
  (normalizeRepoTagPair image.repoTags (normalizeRepoDigest image.repoDigests).1).map
    fun pr =>
      if showDigest then
        Line.tabbed [pr.1, pr.2, (normalizeRepoDigest image.repoDigests).2,
          displayedId noTrunc image.id, env.humanSize image.size]
      else
        Line.tabbed [pr.1, pr.2, displayedId noTrunc image.id, env.humanSize image.size]

/-- The verbose block of one image (image.go lines 173-188). -/
def verboseBlock (env : Env) (image : Image) : List Line :=
  Line.text ("ID: ".data ++ image.id)
    :: image.repoTags.map (fun t => Line.text ("RepoTags: ".data ++ t))
    ++ image.repoDigests.map (fun d => Line.text ("RepoDigests: ".data ++ d))
    ++ (if image.size ≠ 0 then [Line.text ("Size: ".data ++ Nat.toDigits 10 image.size)] else [])
    ++ (match image.uid with
        | some u => [Line.text ("Uid: ".data ++ env.uidFmt u)]
        | none => [])
    ++ (if image.username ≠ [] then
          [Line.text ("Username: ".data ++ image.username), Line.text []]
        else [])

/-- The lines printed for one image in the loop of listImageCommand. -/
def imageLine (env : Env) (flags : ListFlags) (image : Image) : List Line :=
  if flags.quiet then [Line.text image.id]
  else if !flags.verbose then imageRows env flags.digests flags.noTrunc image
  else verboseBlock env image

/-- The outcome of rendering an image list: the json/yaml branches delegate to
an external serializer; the table branch prints lines and returns nil. -/
inductive ListRender where
  | serialized (mode : List Char)
  | table (lines : List Line)
  deriving DecidableEq, Repr

/-- The output stage of listImageCommand (image.go lines 128-191), applied to
the already-sorted image list. -/
def listImageRender (env : Env) (flags : ListFlags) (images : List Image) : ListRender :=
  if flags.output = "json".data then .serialized ("json".data)
  else if flags.output = "yaml".data then .serialized ("yaml".data)
  else
    .table
      ((if !flags.verbose && !flags.quiet then
          if flags.digests then
            [Line.tabbed ["IMAGE".data, "TAG".data, "DIGEST".data, "IMAGE ID".data, "SIZE".data]]
          else
            [Line.tabbed ["IMAGE".data, "TAG".data, "IMAGE ID".data, "SIZE".data]]
        else [])
        ++ (images.map (imageLine env flags)).flatten)

/-- The table block of inspecti for one image (image.go lines 251-262). -/
def statusTable (env : Env) (verbose : Bool) (image : Image) (info : List Char) : List Line :=
  Line.text ("ID: ".data ++ image.id)
    :: image.repoTags.map (fun t => Line.text ("Tag: ".data ++ t))
    ++ image.repoDigests.map (fun d => Line.text ("Digest: ".data ++ d))
    ++ [Line.text ("Size: ".data ++ env.humanSize image.size)]
    ++ (if verbose then [Line.text ("Info: ".data ++ env.infoFmt info)] else [])

/-- The per-identifier loop of imageStatusCommand (image.go lines 223-263). -/
def inspectLoop (env : Env) (verbose : Bool) (output : List Char) :
    List (List Char) → CmdOut
  | [] => ⟨[], [], .ok ()⟩
  | id :: rest =>
    match env.status id verbose with
    | .error e =>
      ⟨[Call.status id verbose], [],
       .error ("image status for \"".data ++ id ++ "\" request failed: ".data ++ e)⟩
    | .ok (none, _) =>
      ⟨[Call.status id verbose], [],
       .error ("no such image \"".data ++ id ++ "\" present".data)⟩
    | .ok (some image, info) =>
      match env.marshal image with
      | .error e =>
        ⟨[Call.status id verbose], [],
         .error ("failed to marshal status to json for \"".data ++ id ++ "\": ".data ++ e)⟩
      | .ok status =>
        if output = "json".data ∨ output = "yaml".data then
          match env.outputStatus status info output with
          | .error e =>
            ⟨[Call.status id verbose], [],
             .error ("failed to output status for \"".data ++ id ++ "\": ".data ++ e)⟩
          | .ok _ =>
            ⟨Call.status id verbose :: (inspectLoop env verbose output rest).calls,
             (inspectLoop env verbose output rest).lines,
             (inspectLoop env verbose output rest).result⟩
        else if output = "table".data then
          ⟨Call.status id verbose :: (inspectLoop env verbose output rest).calls,
           statusTable env verbose image info ++ (inspectLoop env verbose output rest).lines,
           (inspectLoop env verbose output rest).result⟩
        else
          ⟨[Call.status id verbose], [], .error ("output option cannot be ".data ++ output)⟩

/-- imageStatusCommand (inspecti, image.go lines 211-266): help on zero
arguments, verbose is the negation of --quiet, the output format defaults to
json, then the per-identifier loop. -/
def imageStatusCommand (env : Env) (quiet : Bool) (output0 : List Char)
    (ids : List (List Char)) : CmdOut :=
  if ids = [] then ⟨[], [], .ok ()⟩
  else inspectLoop env (!quiet) (if output0 = [] then "json".data else output0) ids

/-- RemoveImage from image.go (lines 400-408): an empty identifier fails
before any RPC, otherwise one RemoveImage RPC is issued. -/
def RemoveImage (env : Env) (image : List Char) : List Call × Except (List Char) Unit :=
  if image = [] then ([], .error ("ImageID cannot be empty".data))
  else ([Call.remove image], env.remove image)

/-- The per-identifier loop of removeImageCommand (image.go lines 280-299). -/
def rmiLoop (env : Env) : List (List Char) → CmdOut
  | [] => ⟨[], [], .ok ()⟩
  | id :: rest =>
    match env.status id false with
    | .error e =>
      ⟨[Call.status id false], [],
       .error ("image status request for \"".data ++ id ++ "\" failed: ".data ++ e)⟩
    | .ok (none, _) =>
      ⟨[Call.status id false], [], .error ("no such image ".data ++ id)⟩
    | .ok (some image, _) =>
      match (RemoveImage env id).2 with
      | .error e =>
        ⟨Call.status id false :: (RemoveImage env id).1, [],
         .error ("error of removing image \"".data ++ id ++ "\": ".data ++ e)⟩
      | .ok _ =>
        ⟨Call.status id false :: (RemoveImage env id).1 ++ (rmiLoop env rest).calls,
         image.repoTags.map (fun t => Line.text ("Deleted: ".data ++ t))
           ++ (rmiLoop env rest).lines,
         (rmiLoop env rest).result⟩

/-- removeImageCommand (rmi, image.go lines 273-301): help on zero arguments,
else the per-identifier loop. -/
def removeImageCommand (env : Env) (ids : List (List Char)) : CmdOut :=
  if ids = [] then ⟨[], [], .ok ()⟩ else rmiLoop env ids

/-- A concrete image used as a witness input. -/
def imgW : Image :=
  ⟨"deadbeef".data, ["img:1".data], ["img@sha256:aa".data], 5, none, []⟩

/-- A concrete environment used as a witness input: the service always
reports `imgW` present, removals succeed, and the serializers succeed. -/
def envW : Env :=
  ⟨fun _ => [], fun _ => [], fun _ => [],
   fun _ _ => .ok (some imgW, []), fun _ => .ok (), fun _ => .ok [],
   fun _ _ _ => .ok ()⟩

/-- Image with first tag "b:1" and identifier "1" (counterexample input). -/
def imgA : Image := ⟨"1".data, ["b:1".data], [], 0, none, []⟩

/-- Image with no tags, no digests, identifier "2" (counterexample input). -/
def imgB : Image := ⟨"2".data, [], [], 0, none, []⟩

/-- Image with first tag "a:1" and identifier "3" (counterexample input). -/
def imgC : Image := ⟨"3".data, ["a:1".data], [], 0, none, []⟩

/-- Image with first tag "x:1" and identifier "1" (counterexample input). -/
def imgT1 : Image := ⟨"1".data, ["x:1".data], [], 0, none, []⟩

/-- Image with the same first tag "x:1" but identifier "2". -/
def imgT2 : Image := ⟨"2".data, ["x:1".data], [], 0, none, []⟩

end Crictl

namespace Crictl

theorem takeWhile_of_all {α : Type} (p : α → Bool) :
    ∀ s : List α, (∀ c ∈ s, p c = true) → s.takeWhile p = s := by
  intro s
  induction s with
  | nil => intro _; rfl
  | cons c cs ih =>
    intro h
    have hc : p c = true := h c (List.mem_cons_self c cs)
    simp [List.takeWhile, hc]
    exact fun x hx => h x (List.mem_cons_of_mem c hx)

theorem splitFirst_eq (sep : Char) :
    ∀ s : List Char,
      splitFirst sep s =
        if sep ∈ s then
          some (s.takeWhile (fun c => c != sep), (s.dropWhile (fun c => c != sep)).tail)
        else none := by
  intro s
  induction s with
  | nil => simp [splitFirst]
  | cons c cs ih =>
    by_cases hc : c = sep
    · subst hc
      simp [splitFirst, List.takeWhile, List.dropWhile]
    · have hcb : (c == sep) = false := by simp [hc]
      have hcb' : (c != sep) = true := by simp [hc]
      by_cases hm : sep ∈ cs
      · simp [splitFirst, hcb, ih, hm, hc, List.takeWhile, List.dropWhile, hcb']
      · have : ¬ sep ∈ c :: cs := by
          intro h
          rcases List.mem_cons.mp h with h | h
          · exact hc h.symm
          · exact hm h
        simp [splitFirst, hcb, ih, hm, this]

/-- C2: for every credential string, `parseCreds` fails exactly when the
string is empty or the segment before the first colon is empty, and otherwise
returns the split at the first colon with an empty password when there is no
colon.  Stated as equality with the spec-worded function `parseCredsSpec`. -/
theorem parseCreds_meets_spec (s : List Char) : parseCreds s = parseCredsSpec s := by
  by_cases hnil : s = []
  · subst hnil; rfl
  · by_cases hmem : ':' ∈ s
    · have h1 := splitFirst_eq ':' s
      rw [if_pos hmem] at h1
      by_cases hpre : s.takeWhile (fun c => c != ':') = []
      · simp [parseCreds, parseCredsSpec, hnil, h1, hpre]
      · simp [parseCreds, parseCredsSpec, hnil, h1, hpre, hmem]
    · have h1 := splitFirst_eq ':' s
      rw [if_neg hmem] at h1
      have hall : ∀ c ∈ s, (c != ':') = true := by
        intro c hcs
        have : ¬ c = ':' := fun h => hmem (h ▸ hcs)
        simp [this]
      have htw : s.takeWhile (fun c => c != ':') = s := takeWhile_of_all _ s hall
      simp [parseCreds, parseCredsSpec, hnil, h1, htw, hmem]

theorem takeWhile_append_stop {α : Type} (p : α → Bool) (x : α) :
    ∀ (l l2 : List α), x ∈ l → p x = false →
      (l ++ l2).takeWhile p = l.takeWhile p := by
  intro l
  induction l with
  | nil => intro l2 hx _; exact absurd hx (List.not_mem_nil x)
  | cons c cs ih =>
    intro l2 hx hpx
    cases hpc : p c with
    | false => simp [List.takeWhile, hpc]
    | true =>
      have hxc : x ∈ cs := by
        rcases List.mem_cons.mp hx with h | h
        · subst h; rw [hpc] at hpx; exact absurd hpx (by simp)
        · exact h
      simp [List.takeWhile, hpc, ih l2 hxc hpx]

theorem dropWhile_append_stop {α : Type} (p : α → Bool) (x : α) :
    ∀ (l l2 : List α), x ∈ l → p x = false →
      (l ++ l2).dropWhile p = l.dropWhile p ++ l2 := by
  intro l
  induction l with
  | nil => intro l2 hx _; exact absurd hx (List.not_mem_nil x)
  | cons c cs ih =>
    intro l2 hx hpx
    cases hpc : p c with
    | false => simp [List.dropWhile, hpc]
    | true =>
      have hxc : x ∈ cs := by
        rcases List.mem_cons.mp hx with h | h
        · subst h; rw [hpc] at hpx; exact absurd hpx (by simp)
        · exact h
      simp [List.dropWhile, hpc, ih l2 hxc hpx]

theorem dropWhile_ne_nil_of_mem {α : Type} (p : α → Bool) (x : α) :
    ∀ l : List α, x ∈ l → p x = false → l.dropWhile p ≠ [] := by
  intro l
  induction l with
  | nil => intro hx _; exact absurd hx (List.not_mem_nil x)
  | cons c cs ih =>
    intro hx hpx
    cases hpc : p c with
    | false => simp [List.dropWhile, hpc]
    | true =>
      have hxc : x ∈ cs := by
        rcases List.mem_cons.mp hx with h | h
        · subst h; rw [hpc] at hpx; exact absurd hpx (by simp)
        · exact h
      simp [List.dropWhile, hpc]
      exact ⟨x, hxc, hpx⟩

theorem takeWhile_append_all {α : Type} (p : α → Bool) :
    ∀ (l l2 : List α), (∀ x ∈ l, p x = true) →
      (l ++ l2).takeWhile p = l ++ l2.takeWhile p := by
  intro l
  induction l with
  | nil => intro l2 _; rfl
  | cons c cs ih =>
    intro l2 h
    have hc : p c = true := h c (List.mem_cons_self c cs)
    simp [List.takeWhile, hc]
    exact ih l2 fun x hx => h x (List.mem_cons_of_mem c hx)

theorem dropWhile_append_all {α : Type} (p : α → Bool) :
    ∀ (l l2 : List α), (∀ x ∈ l, p x = true) →
      (l ++ l2).dropWhile p = l2.dropWhile p := by
  intro l
  induction l with
  | nil => intro l2 _; rfl
  | cons c cs ih =>
    intro l2 h
    have hc : p c = true := h c (List.mem_cons_self c cs)
    simp [List.dropWhile, hc]
    exact ih l2 fun x hx => h x (List.mem_cons_of_mem c hx)

theorem tail_append_of_ne_nil {α : Type} (l l2 : List α) (h : l ≠ []) :
    (l ++ l2).tail = l.tail ++ l2 := by
  cases l with
  | nil => exact absurd rfl h
  | cons c cs => rfl

theorem lastIndex_eq_none (sep : Char) :
    ∀ s : List Char, lastIndex sep s = none ↔ sep ∉ s := by
  intro s
  induction s with
  | nil => simp [lastIndex]
  | cons c cs ih =>
    cases hcs : lastIndex sep cs with
    | some i =>
      have : sep ∈ cs := by
        by_contra hmem
        rw [(ih).mpr hmem] at hcs
        exact Option.noConfusion hcs
      simp [lastIndex, hcs, this]
    | none =>
      have hmem : sep ∉ cs := ih.mp hcs
      by_cases hc : c = sep
      · subst hc; simp [lastIndex, hcs]
      · have : (c == sep) = false := by simp [hc]
        simp [lastIndex, hcs, this, hmem, Ne.symm hc]

theorem lastIndex_split (sep : Char) :
    ∀ (s : List Char) (i : Nat), lastIndex sep s = some i →
      s.take i = ((s.reverse.dropWhile (fun c => c != sep)).tail).reverse
      ∧ s.drop (i + 1) = (s.reverse.takeWhile (fun c => c != sep)).reverse := by
  intro s
  induction s with
  | nil => intro i h; exact Option.noConfusion h
  | cons c cs ih =>
    intro i h
    have hpsep : (fun x => x != sep) sep = false := by simp
    cases hcs : lastIndex sep cs with
    | some j =>
      rw [lastIndex, hcs] at h
      have hij : i = j + 1 := (Option.some.inj h).symm
      subst hij
      have hmem : sep ∈ cs := by
        by_contra hmem
        rw [(lastIndex_eq_none sep cs).mpr hmem] at hcs
        exact Option.noConfusion hcs
      have hmemr : sep ∈ cs.reverse := List.mem_reverse.mpr hmem
      obtain ⟨ih1, ih2⟩ := ih j hcs
      have hdrop := dropWhile_append_stop (fun x => x != sep) sep cs.reverse [c] hmemr hpsep
      have htake := takeWhile_append_stop (fun x => x != sep) sep cs.reverse [c] hmemr hpsep
      have hne := dropWhile_ne_nil_of_mem (fun x => x != sep) sep cs.reverse hmemr hpsep
      constructor
      · rw [List.take_succ_cons, List.reverse_cons, hdrop,
          tail_append_of_ne_nil _ _ hne]
        simp [ih1]
      · rw [List.drop_succ_cons, List.reverse_cons, htake, ih2]
    | none =>
      rw [lastIndex, hcs] at h
      have hmem : sep ∉ cs := (lastIndex_eq_none sep cs).mp hcs
      by_cases hc : c = sep
      · subst hc
        simp only [beq_self_eq_true, if_pos] at h
        have hi : i = 0 := (Option.some.inj h).symm
        subst hi
        have hall : ∀ x ∈ cs.reverse, (fun y => y != c) x = true := by
          intro x hx
          have hxcs : x ∈ cs := List.mem_reverse.mp hx
          have hxc : ¬ x = c := fun hxe => hmem (hxe ▸ hxcs)
          simp [hxc]
        constructor
        · rw [List.take_zero, List.reverse_cons,
            dropWhile_append_all _ _ _ hall]
          simp [List.dropWhile, hpsep]
        · rw [List.drop_succ_cons, List.drop_zero, List.reverse_cons,
            takeWhile_append_all _ _ _ hall]
          simp [List.takeWhile, hpsep]
      · have : (c == sep) = false := by simp [hc]
        rw [this] at h
        exact Option.noConfusion h

theorem tagSplit_entry (e : List Char) :
    (match lastIndex ':' e with
     | none => ("errorRepoTag".data, "errorRepoTag".data)
     | some idx => (e.take idx, e.drop (idx + 1))) = tagSplitSpec e := by
  cases h : lastIndex ':' e with
  | none =>
    have hmem : ':' ∉ e := (lastIndex_eq_none ':' e).mp h
    simp [tagSplitSpec, hmem]
  | some i =>
    have hmem : ':' ∈ e := by
      by_contra hmem
      rw [(lastIndex_eq_none ':' e).mpr hmem] at h
      exact Option.noConfusion h
    obtain ⟨h1, h2⟩ := lastIndex_split ':' e i h
    simp [tagSplitSpec, hmem, h1, h2]

theorem map_congr_all {α β : Type} (f g : α → β) :
    ∀ l : List α, (∀ x ∈ l, f x = g x) → l.map f = l.map g := by
  intro l
  induction l with
  | nil => intro _; rfl
  | cons c cs ih =>
    intro h
    simp only [List.map_cons, h c (List.mem_cons_self c cs)]
    rw [ih fun x hx => h x (List.mem_cons_of_mem c hx)]

/-- C3: normalizing an empty repository-tag list yields the single pair
(name, "<none>"); a non-empty list yields one pair per entry in order, each
entry split at its final colon, with the errorRepoTag sentinels when an entry
has no colon.  Stated as equality with the spec-worded function
`normalizeRepoTagPairSpec`. -/
theorem normalizeRepoTagPair_meets_spec (repoTags : List (List Char)) (imageName : List Char) :
    normalizeRepoTagPair repoTags imageName = normalizeRepoTagPairSpec repoTags imageName := by
  by_cases hT : repoTags = []
  · subst hT; rfl
  · simp only [normalizeRepoTagPair, normalizeRepoTagPairSpec, if_neg hT]
    exact map_congr_all _ _ repoTags fun e _ => tagSplit_entry e

theorem splitAll_ne_nil (sep : Char) : ∀ s : List Char, splitAll sep s ≠ [] := by
  intro s
  induction s with
  | nil => simp [splitAll]
  | cons c cs ih =>
    cases hs : splitAll sep cs with
    | nil => exact absurd hs ih
    | cons h t =>
      by_cases hc : (c == sep) = true
      · simp [splitAll, hs, hc]
      · simp [splitAll, hs, hc]

theorem splitAll_length (sep : Char) :
    ∀ s : List Char, (splitAll sep s).length = countCh sep s + 1 := by
  intro s
  induction s with
  | nil => rfl
  | cons c cs ih =>
    cases hs : splitAll sep cs with
    | nil => exact absurd hs (splitAll_ne_nil sep cs)
    | cons h t =>
      rw [hs] at ih
      by_cases hc : (c == sep) = true
      · simp only [splitAll, hs, hc, if_pos]
        simp only [List.length_cons] at ih ⊢
        simp [countCh, hc]
        omega
      · have hc' : (c == sep) = false := by
          cases hcb : (c == sep) with
          | false => rfl
          | true => exact absurd hcb hc
        simp only [splitAll, hs, hc', Bool.false_eq_true, if_false]
        simp only [List.length_cons] at ih ⊢
        simp [countCh, hc']
        omega

theorem splitAll_count_zero (sep : Char) :
    ∀ s : List Char, countCh sep s = 0 → splitAll sep s = [s] := by
  intro s
  induction s with
  | nil => intro _; rfl
  | cons c cs ih =>
    intro h
    have hc : (c == sep) = false := by
      cases hcb : (c == sep) with
      | false => rfl
      | true => rw [countCh, hcb] at h; simp at h
    rw [countCh, hc] at h
    simp at h
    rw [splitAll, ih h, hc]
    simp

theorem splitAll_count_one (sep : Char) :
    ∀ s : List Char, countCh sep s = 1 →
      splitAll sep s = [s.takeWhile (fun c => c != sep), (s.dropWhile (fun c => c != sep)).tail] := by
  intro s
  induction s with
  | nil => intro h; simp [countCh] at h
  | cons c cs ih =>
    intro h
    by_cases hc : (c == sep) = true
    · rw [countCh, hc] at h
      simp at h
      rw [splitAll, splitAll_count_zero sep cs h, hc]
      have hcf : (fun x => x != sep) c = false := by
        simp only [bne_eq_false_iff_eq]
        exact eq_of_beq hc
      simp [List.takeWhile, List.dropWhile, hcf]
    · have hc' : (c == sep) = false := by
        cases hcb : (c == sep) with
        | false => rfl
        | true => exact absurd hcb hc
      rw [countCh, hc'] at h
      simp at h
      have hct : (fun x => x != sep) c = true := by
        simp only [bne_iff_ne]
        intro he
        rw [he] at hc'
        simp at hc'
      rw [splitAll, ih h, hc']
      simp [List.takeWhile, List.dropWhile, hct]

/-- C4: normalizing an empty repository-digest list yields
("<none>", "<none>"); otherwise, splitting the first digest on "@" into
exactly two parts yields those parts, else the error sentinels.  Stated as
equality with the spec-worded function `normalizeRepoDigestSpec`. -/
theorem normalizeRepoDigest_meets_spec (repoDigests : List (List Char)) :
    normalizeRepoDigest repoDigests = normalizeRepoDigestSpec repoDigests := by
  cases repoDigests with
  | nil => rfl
  | cons d rest =>
    by_cases hc : countCh '@' d = 1
    · rw [normalizeRepoDigest, normalizeRepoDigestSpec,
        splitAll_count_one '@' d hc, if_pos hc]
    · have hl := splitAll_length '@' d
      rw [normalizeRepoDigest, normalizeRepoDigestSpec, if_neg hc]
      rcases h0 : splitAll '@' d with _ | ⟨a, _ | ⟨b, _ | ⟨c2, tl3⟩⟩⟩
      · exact absurd h0 (splitAll_ne_nil '@' d)
      · rfl
      · rw [h0] at hl
        simp at hl
        exact absurd hl hc
      · rfl

theorem lexLt_asymm : ∀ s t : List Char, (lexLt s t && lexLt t s) = false := by
  intro s
  induction s with
  | nil => intro t; cases t <;> simp [lexLt]
  | cons a as ih =>
    intro t
    cases t with
    | nil => simp [lexLt]
    | cons b bs =>
      by_cases hab : a.toNat < b.toNat
      · have hba : ¬ b.toNat < a.toNat := by omega
        simp [lexLt, hab, hba]
      · by_cases hba : b.toNat < a.toNat
        · simp [lexLt, hab, hba]
        · simp [lexLt, hab, hba, ih bs]

/-- C1 (amended): the list-images comparator compares two images by their
first repository-tag string when both have at least one tag, else by their
first repository-digest string when both have at least one digest, else by
their raw identifier, ascending lexicographically (equality with the
spec-worded `imageLessSpec`); the comparator is asymmetric.  Ties are NOT
broken by identifier and the relation is not a total order (see the
counterexample). -/
theorem imageByRefLess_meets_spec (a b : Image) :
    imageByRefLess a b = imageLessSpec a b
    ∧ (imageByRefLess a b && imageByRefLess b a) = false := by
  obtain ⟨aid, atags, adigs, asz, auid, aun⟩ := a
  obtain ⟨bid, btags, bdigs, bsz, buid, bun⟩ := b
  constructor
  · cases atags <;> cases btags <;> cases adigs <;> cases bdigs <;>
      simp [imageByRefLess, imageLessSpec]
  · cases atags <;> cases btags <;> cases adigs <;> cases bdigs <;>
      simp [imageByRefLess, lexLt_asymm]

/-- C1 counterexample: two images with the same first tag but different
identifiers are mutually unordered (the tie is not broken by identifier), and
on `imgA`, `imgB`, `imgC` the comparator is cyclic, so it does not induce a
total order. -/
theorem imageByRefLess_not_total_counterexample :
    (imageByRefLess imgT1 imgT2 = false ∧ imageByRefLess imgT2 imgT1 = false
      ∧ imgT1.id ≠ imgT2.id)
    ∧ (imageByRefLess imgA imgB = true ∧ imageByRefLess imgB imgC = true
      ∧ imageByRefLess imgC imgA = true) := by
  decide

theorem take_all_of_le {α : Type} : ∀ (l : List α) (n : Nat), l.length ≤ n → l.take n = l := by
  intro l
  induction l with
  | nil => intro n _; simp
  | cons c cs ih =>
    intro n h
    cases n with
    | zero => simp at h
    | succ m =>
      simp only [List.take_succ_cons]
      rw [ih m (by simpa using h)]

/-- C6: with truncation enabled the displayed identifier is the raw
identifier with a leading "sha256:" removed and cut to at most 12 characters;
with --no-trunc the raw identifier is shown unchanged. -/
theorem displayedId_rule (id : List Char) :
    displayedId false id = (stripLeading ("sha256:".data) id).take 12
    ∧ displayedId true id = id := by
  constructor
  · by_cases h : truncatedIDLen < (stripLeading ("sha256:".data) id).length
    · simp [displayedId, h, truncatedIDLen]
    · have h12 : ¬ 12 < (stripLeading ("sha256:".data) id).length := h
      have hle : (stripLeading ("sha256:".data) id).length ≤ 12 := Nat.le_of_not_lt h12
      rw [take_all_of_le _ _ hle]
      simp [displayedId, h]
  · rfl

/-- C8: the images command on an empty list in table mode (non-quiet,
non-verbose) prints exactly the single header line and no data rows; the
`ListRender.table` constructor is the branch of listImageCommand that returns
nil, so no error is returned. -/
theorem images_empty_table (env : Env) (sd nt : Bool) (out : List Char)
    (h1 : out ≠ "json".data) (h2 : out ≠ "yaml".data) :
    listImageRender env ⟨false, false, out, sd, nt⟩ [] =
      .table [Line.tabbed
        (if sd then ["IMAGE".data, "TAG".data, "DIGEST".data, "IMAGE ID".data, "SIZE".data]
         else ["IMAGE".data, "TAG".data, "IMAGE ID".data, "SIZE".data])] := by
  cases sd <;> simp [listImageRender, h1, h2]

/-- Witness for `images_empty_table` at the default flags. -/
theorem images_empty_table_witness :
    listImageRender envW ⟨false, false, [], false, false⟩ [] =
      .table [Line.tabbed ["IMAGE".data, "TAG".data, "IMAGE ID".data, "SIZE".data]] :=
  images_empty_table envW false false [] (by decide) (by decide)

theorem flatten_map_singleton {α β : Type} (f : α → β) :
    ∀ l : List α, (l.map fun x => [f x]).flatten = l.map f := by
  intro l
  induction l with
  | nil => rfl
  | cons c cs ih => simp only [List.map_cons, List.flatten_cons, ih, List.singleton_append]

/-- C10: with both --quiet and --verbose set, quiet wins: the images command
prints only the raw identifiers, one per line, with no header, no table rows
and no verbose block. -/
theorem images_quiet_precedence (env : Env) (images : List Image) (sd nt : Bool)
    (out : List Char) (h1 : out ≠ "json".data) (h2 : out ≠ "yaml".data) :
    listImageRender env ⟨true, true, out, sd, nt⟩ images =
      .table (images.map fun i => Line.text i.id) := by
  simp only [listImageRender, if_neg h1, if_neg h2]
  have hmap : images.map (imageLine env ⟨true, true, out, sd, nt⟩)
      = images.map (fun i => [Line.text i.id]) :=
    map_congr_all _ _ images fun i _ => rfl
  rw [hmap, flatten_map_singleton]
  simp

/-- Witness for `images_quiet_precedence` on a one-image list. -/
theorem images_quiet_precedence_witness :
    listImageRender envW ⟨true, true, [], false, false⟩ [imgW] =
      .table [Line.text ("deadbeef".data)] :=
  images_quiet_precedence envW [imgW] false false [] (by decide) (by decide)

/-- C5 (amended): inspecti with a non-empty output value outside
json/yaml/table always fails, but only after the status request for the first
identifier has been issued: exactly one status request is sent, and when that
request succeeds with an image present and marshalling succeeds, the failure
is the "output option cannot be" validation error. -/
theorem inspecti_invalid_output (env : Env) (quiet : Bool) (out id : List Char)
    (rest : List (List Char)) (h0 : out ≠ []) (h1 : out ≠ "json".data)
    (h2 : out ≠ "yaml".data) (h3 : out ≠ "table".data) :
    (imageStatusCommand env quiet out (id :: rest)).calls = [Call.status id (!quiet)]
    ∧ (∃ e, (imageStatusCommand env quiet out (id :: rest)).result = .error e)
    ∧ (∀ img info st, env.status id (!quiet) = .ok (some img, info) →
        env.marshal img = .ok st →
        (imageStatusCommand env quiet out (id :: rest)).result =
          .error ("output option cannot be ".data ++ out)) := by
  have hcmd : imageStatusCommand env quiet out (id :: rest)
      = inspectLoop env (!quiet) out (id :: rest) := by
    simp [imageStatusCommand, h0]
  rw [hcmd]
  rcases hs : env.status id (!quiet) with e | ⟨img?, info⟩
  · have heq : inspectLoop env (!quiet) out (id :: rest)
        = ⟨[Call.status id (!quiet)], [],
           .error ("image status for \"".data ++ id ++ "\" request failed: ".data ++ e)⟩ := by
      simp [inspectLoop, hs]
    rw [heq]
    exact ⟨rfl, ⟨_, rfl⟩,
      fun img info st hok _ => Except.noConfusion hok⟩
  · cases img? with
    | none =>
      have heq : inspectLoop env (!quiet) out (id :: rest)
          = ⟨[Call.status id (!quiet)], [],
             .error ("no such image \"".data ++ id ++ "\" present".data)⟩ := by
        simp [inspectLoop, hs]
      rw [heq]
      refine ⟨rfl, ⟨_, rfl⟩, fun img info' st hok _ => ?_⟩
      have hpair := Except.ok.inj hok
      exact Option.noConfusion (congrArg Prod.fst hpair)
    | some image =>
      rcases hm : env.marshal image with e | st0
      · have heq : inspectLoop env (!quiet) out (id :: rest)
            = ⟨[Call.status id (!quiet)], [],
               .error ("failed to marshal status to json for \"".data ++ id ++ "\": ".data ++ e)⟩ := by
          simp [inspectLoop, hs, hm]
        rw [heq]
        refine ⟨rfl, ⟨_, rfl⟩, fun img info' st hok hmok => ?_⟩
        have hpair := Except.ok.inj hok
        have himg : image = img := Option.some.inj (congrArg Prod.fst hpair)
        rw [← himg] at hmok
        exact Except.noConfusion (hm.symm.trans hmok)
      · have heq : inspectLoop env (!quiet) out (id :: rest)
            = ⟨[Call.status id (!quiet)], [],
               .error ("output option cannot be ".data ++ out)⟩ := by
          simp [inspectLoop, hs, hm, h1, h2, h3]
        rw [heq]
        exact ⟨rfl, ⟨_, rfl⟩, fun _ _ _ _ _ => rfl⟩

/-- Witness for `inspecti_invalid_output`. -/
theorem inspecti_invalid_output_witness :
    (imageStatusCommand envW false ("table2".data) ["b".data]).calls
      = [Call.status ("b".data) true] :=
  (inspecti_invalid_output envW false ("table2".data) ("b".data) []
    (by decide) (by decide) (by decide) (by decide)).1

/-- C5 counterexample: with output "bogus" and one identifier, the command
does fail with the validation error, but only after issuing the status
request for that identifier, refuting "before any status request is sent". -/
theorem inspecti_validation_after_rpc_counterexample :
    imageStatusCommand envW false ("bogus".data) ["a".data]
        = ⟨[Call.status ("a".data) true], [],
           .error ("output option cannot be bogus".data)⟩
      ∧ [Call.status ("a".data) true] ≠ ([] : List Call) := by
  exact ⟨rfl, by decide⟩

/-- C9: RemoveImage with an empty image identifier returns the error
"ImageID cannot be empty" and issues no RPC. -/
theorem removeImage_empty_id (env : Env) :
    RemoveImage env [] = ([], .error ("ImageID cannot be empty".data)) := rfl

/-- C7 (amended): for each rmi identifier a non-verbose status request comes
first; an absent image fails with "no such image" and nothing further
(no remove call, later identifiers untouched); a present image with a
non-empty identifier issues the remove call, printing "Deleted: <tag>" for
every pre-removal repository-tag on success and failing with the wrapped
error otherwise; an empty identifier with a present image fails locally
without a remove call; a failing status request halts everything. -/
theorem rmi_per_identifier (env : Env) (id : List Char) (rest : List (List Char)) :
    ((rmiLoop env (id :: rest)).calls.head? = some (Call.status id false))
    ∧ (∀ info, env.status id false = .ok (none, info) →
        rmiLoop env (id :: rest)
          = ⟨[Call.status id false], [], .error ("no such image ".data ++ id)⟩)
    ∧ (∀ img info, env.status id false = .ok (some img, info) → id ≠ [] →
        ((env.remove id = .ok () →
           rmiLoop env (id :: rest)
             = ⟨Call.status id false :: Call.remove id :: (rmiLoop env rest).calls,
                img.repoTags.map (fun t => Line.text ("Deleted: ".data ++ t))
                  ++ (rmiLoop env rest).lines,
                (rmiLoop env rest).result⟩)
         ∧ (∀ e, env.remove id = .error e →
             rmiLoop env (id :: rest)
               = ⟨[Call.status id false, Call.remove id], [],
                  .error ("error of removing image \"".data ++ id ++ "\": ".data ++ e)⟩)))
    ∧ (∀ img info, env.status id false = .ok (some img, info) → id = [] →
        rmiLoop env (id :: rest)
          = ⟨[Call.status id false], [],
             .error ("error of removing image \"".data ++ id
               ++ "\": ".data ++ "ImageID cannot be empty".data)⟩)
    ∧ (∀ e, env.status id false = .error e →
        rmiLoop env (id :: rest)
          = ⟨[Call.status id false], [],
             .error ("image status request for \"".data ++ id ++ "\" failed: ".data ++ e)⟩) := by
  rcases hs : env.status id false with e | ⟨img?, info⟩
  · have heq : rmiLoop env (id :: rest)
        = ⟨[Call.status id false], [],
           .error ("image status request for \"".data ++ id ++ "\" failed: ".data ++ e)⟩ := by
      simp [rmiLoop, hs]
    refine ⟨by rw [heq]; rfl,
      fun info hok => Except.noConfusion hok,
      fun img info hok _ => Except.noConfusion hok,
      fun img info hok _ => Except.noConfusion hok,
      fun e' hok => ?_⟩
    have he : e = e' := Except.error.inj hok
    rw [heq, he]
  · cases img? with
    | none =>
      have heq : rmiLoop env (id :: rest)
          = ⟨[Call.status id false], [], .error ("no such image ".data ++ id)⟩ := by
        simp [rmiLoop, hs]
      refine ⟨by rw [heq]; rfl, fun info' hok => heq,
        fun img info' hok _ => ?_, fun img info' hok _ => ?_,
        fun e' hok => Except.noConfusion hok⟩
      · exact Option.noConfusion (congrArg Prod.fst (Except.ok.inj hok))
      · exact Option.noConfusion (congrArg Prod.fst (Except.ok.inj hok))
    | some image =>
      refine ⟨?_, fun info' hok =>
          Option.noConfusion (congrArg Prod.fst (Except.ok.inj hok)),
        fun img info' hok hne => ?_, fun img info' hok he => ?_,
        fun e' hok => Except.noConfusion hok⟩
      · rcases hr : (RemoveImage env id).2 with e' | u
        · simp [rmiLoop, hs, hr]
        · simp [rmiLoop, hs, hr]
      · have himg : image = img :=
          Option.some.inj (congrArg Prod.fst (Except.ok.inj hok))
        have hrm2 : (RemoveImage env id).2 = env.remove id := by
          simp [RemoveImage, hne]
        have hrm1 : (RemoveImage env id).1 = [Call.remove id] := by
          simp [RemoveImage, hne]
        constructor
        · intro hok2
          simp [rmiLoop, hs, hrm2, hok2, hrm1, ← himg]
        · intro e' hok2
          simp [rmiLoop, hs, hrm2, hok2, hrm1]
      · subst he
        have hrm2 : (RemoveImage env []).2 = .error ("ImageID cannot be empty".data) := rfl
        simp [rmiLoop, hs, hrm2, RemoveImage]

/-- Witness for `rmi_per_identifier`: one present image, removal succeeds. -/
theorem rmi_per_identifier_witness :
    rmiLoop envW ["a".data]
      = ⟨[Call.status ("a".data) false, Call.remove ("a".data)],
         [Line.text ("Deleted: img:1".data)], .ok ()⟩ := by
  have h := ((rmi_per_identifier envW ("a".data) []).2.2.1 imgW [] rfl (by decide)).1 rfl
  exact h.trans rfl

/-- C7 counterexample: for the empty identifier, when the service reports an
image present, rmi fails locally with "ImageID cannot be empty" and never
issues the remove call, refuting "otherwise the remove call is issued". -/
theorem rmi_empty_id_counterexample :
    removeImageCommand envW [([] : List Char)]
        = ⟨[Call.status [] false], [],
           .error ("error of removing image \"\": ImageID cannot be empty".data)⟩
      ∧ Call.remove [] ∉ [Call.status [] false] := by
  exact ⟨rfl, by decide⟩

end Crictl
